import Mathlib

/-!
Shallow embedding of the replay buffer of `muzero-general`
(source file `replay_buffer.py`).

The Python class stores finished game trajectories in a bounded list,
counts accepted games, and turns sampled positions into bootstrapped
value / reward / policy / action targets, optionally augmenting a batch
with "symmetry" copies.  Machine floats are modelled by rationals,
Python lists by Lean lists, and fallible list indexing by `Option`
(Python raises `IndexError` out of bounds; the embedding returns
`none` there).  Randomness (`sample_game` / `sample_position`) is
modelled by passing the drawn `(game, position)` pairs explicitly.
-/

namespace ReplayBuffer

/-- An observation: a two-dimensional grid of rationals standing in for one
entry of `observation_history`. -/
abbrev Obs := List (List ℚ)

/-- The `GameHistory` record consumed by the replay buffer: one field per
attribute that `replay_buffer.py` reads. -/
structure GameHistory where
  observation_history : List Obs
  action_history : List Nat
  reward_history : List ℚ
  root_values : List ℚ
  child_visits : List (List ℚ)
  to_play_history : List Nat
deriving DecidableEq

/-- The configuration attributes that `replay_buffer.py` reads from
`self.config`. -/
structure MuZeroConfig where
  window_size : Nat
  batch_size : Nat
  num_unroll_steps : Nat
  td_steps : Nat
  discount : ℚ
deriving DecidableEq

/-- Python list indexing `l[i]` for a non-negative index: `some` element in
bounds, `none` (an `IndexError`) out of bounds. -/
def pyIdx (l : List α) (i : Nat) : Option α := l.get? i

/-- Python list slicing `l[a:b]` for non-negative bounds: total, clipped to
the length of the list. -/
def pySlice (l : List α) (a b : Nat) : List α := (l.drop a).take (b - a)

/-- Lines 118-122 of `make_target`: the bootstrap value, read from
`root_values[bootstrap_index]` when that index is in bounds, `0` otherwise. -/
def bootstrapValue (g : GameHistory) (td_steps : Nat) (discount : ℚ)
    (current_index : Nat) : Option ℚ :=
  if current_index + td_steps < g.root_values.length then do
    let rv ← pyIdx g.root_values (current_index + td_steps)
    pure (rv * discount ^ td_steps)
  else
    pure 0

/-- Lines 124-132 of `make_target`: fold the enumerated reward slice
`reward_history[current_index:bootstrap_index]` into the value, negating a
reward whose acting player differs from the acting player at
`current_index`. -/
def accumulateRewards (g : GameHistory) (td_steps : Nat) (discount : ℚ)
    (current_index : Nat) (value : ℚ) : Option ℚ :=
  ((pySlice g.reward_history current_index (current_index + td_steps)).enum).foldlM
    (fun acc ir => do
      let tp0 ← pyIdx g.to_play_history current_index
      let tpi ← pyIdx g.to_play_history (current_index + ir.1)
      pure (acc + (if tp0 = tpi then ir.2 else -ir.2) * discount ^ ir.1))
    value

/-- Lines 134-151 of `make_target`: the quadruple appended for
`current_index` — the recorded reward / policy / action inside the
trajectory, the absorbing-state padding (zero value, zero reward, uniform
policy over `len(child_visits[0])` entries, action `0`) past its end. -/
def assembleStep (g : GameHistory) (current_index : Nat) (value : ℚ) :
    Option (ℚ × ℚ × List ℚ × Nat) :=
  if current_index < g.root_values.length then do
    let r ← pyIdx g.reward_history current_index
    let p ← pyIdx g.child_visits current_index
    let a ← pyIdx g.action_history current_index
    pure (value, r, p, a)
  else do
    let cv0 ← pyIdx g.child_visits 0
    pure ((0 : ℚ), (0 : ℚ),
      (List.range cv0.length).map (fun _ => (1 : ℚ) / (cv0.length : ℚ)),
      (0 : Nat))

/-- One iteration of the loop of `ReplayBuffer.make_target`
(`replay_buffer.py`, lines 117-151): the `(value, reward, policy, action)`
quadruple appended for `current_index`.  Any out-of-bounds list access
makes the whole step `none`. -/
def makeTargetStep (g : GameHistory) (td_steps : Nat) (discount : ℚ)
    (current_index : Nat) : Option (ℚ × ℚ × List ℚ × Nat) := do
  let value ← bootstrapValue g td_steps discount current_index
  let value ← accumulateRewards g td_steps discount current_index value
  assembleStep g current_index value

/-- `ReplayBuffer.make_target`: runs `makeTargetStep` for `current_index`
from `state_index` to `state_index + num_unroll_steps` inclusive and
collects the four target sequences (the Python loop appends the four
components of each step to four lists). -/
def make_target (g : GameHistory) (state_index num_unroll_steps td_steps : Nat)
    (discount : ℚ) : Option (List ℚ × List ℚ × List (List ℚ) × List Nat) := do
  let steps ← (List.range' state_index (num_unroll_steps + 1)).mapM
    (makeTargetStep g td_steps discount)
  pure (steps.map (fun t => t.1), steps.map (fun t => t.2.1),
        steps.map (fun t => t.2.2.1), steps.map (fun t => t.2.2.2))

/-- The mutable state of the `ReplayBuffer` actor: the bounded list of games
and the self-play counter. -/
structure BufferState where
  buffer : List GameHistory
  self_play_count : Nat
deriving DecidableEq

/-- The state built by `ReplayBuffer.__init__`: empty buffer, zero counter. -/
def initialState : BufferState := ⟨[], 0⟩

/-- `ReplayBuffer.save_game`: pop the oldest game when the buffer holds more
than `window_size` games, then append the new game and bump the counter. -/
def save_game (config : MuZeroConfig) (s : BufferState)
    (game_history : GameHistory) : BufferState :=
  let b := if s.buffer.length > config.window_size then s.buffer.tail else s.buffer
  ⟨b ++ [game_history], s.self_play_count + 1⟩

/-- `ReplayBuffer.get_self_play_count`: read the counter. -/
def get_self_play_count (s : BufferState) : Nat := s.self_play_count

/-- The state after a sequence of `save_game` calls starting from the freshly
constructed buffer. -/
def save_games (config : MuZeroConfig) (gs : List GameHistory) : BufferState :=
  gs.foldl (save_game config) initialState

/-- The errors `get_batch` can surface: the `ValueError` raised on a
batch-size / symmetry mismatch, and an `IndexError` from list indexing. -/
inductive BufferError where
  | invalidConfiguration
  | indexError
deriving DecidableEq

/-- The `exploit_symmetries` argument of `get_batch`: three integer flags,
read as `exploit_symmetries[0]`, `[1]`, `[2]` in the source. -/
structure Symmetries where
  horizontal : Nat
  vertical : Nat
  diagonal : Nat
deriving DecidableEq

/-- `sum(exploit_symmetries)` in the source. -/
def Symmetries.symTotal (e : Symmetries) : Nat :=
  e.horizontal + e.vertical + e.diagonal

/-- Python list slicing `l[:]` (a shallow copy). -/
def sliceAll (l : List α) : List α := l

/-- Python list slicing `l[::-1]` (the reversed list). -/
def sliceRev (l : List α) : List α := l.reverse

/-- The sampling loop of `get_batch` (`replay_buffer.py`, lines 44-60): for
each drawn `(game, position)` pair, build the targets with `make_target` and
collect the observation at the sampled position together with the four target
sequences.  The drawn pairs stand for the outcomes of `sample_game` and
`sample_position`. -/
def collectSamples (config : MuZeroConfig) :
    List (GameHistory × Nat) →
      Except BufferError (List (Obs × (List ℚ × List ℚ × List (List ℚ) × List Nat)))
  | [] => Except.ok []
  | gp :: rest =>
    match make_target gp.1 gp.2 config.num_unroll_steps config.td_steps
        config.discount with
    | none => Except.error BufferError.indexError
    | some t =>
      match pyIdx gp.1.observation_history gp.2 with
      | none => Except.error BufferError.indexError
      | some o =>
        match collectSamples config rest with
        | Except.error e => Except.error e
        | Except.ok others => Except.ok ((o, t) :: others)

/-- `ReplayBuffer.get_batch` (`replay_buffer.py`, lines 25-91).  The
divisibility check and the `ValueError` come first; then `batch_size` samples
are drawn (here: taken from the `draws` oracle); then the observation batch
is extended once per enabled flag with `observation_batch[:][:][::-1][:]`
(horizontal), `observation_batch[:][:][:][::-1]` (vertical) and
`observation_batch[:][:][::-1][::-1]` (diagonal) — Python list slicing, so
these reverse or copy the batch list itself — and the four label batches are
each extended with `sum(exploit_symmetries)` plain copies of themselves. -/
def get_batch (config : MuZeroConfig) (exploit_symmetries : Symmetries)
    (draws : List (GameHistory × Nat)) :
    Except BufferError
      (List Obs × List (List Nat) × List (List ℚ) × List (List ℚ) ×
        List (List (List ℚ))) :=
  let s := exploit_symmetries.symTotal
  let batch_size := if s = 0 then config.batch_size else config.batch_size / (s + 1)
  if (s + 1) * batch_size ≠ config.batch_size then
    Except.error BufferError.invalidConfiguration
  else do
    let samples ← collectSamples config (draws.take batch_size)
    let observation_batch := samples.map (fun x => x.1)
    let action_batch := samples.map (fun x => x.2.2.2.2)
    let value_batch := samples.map (fun x => x.2.1)
    let reward_batch := samples.map (fun x => x.2.2.1)
    let policy_batch := samples.map (fun x => x.2.2.2.1)
    let ext_observation_batch := observation_batch
      ++ (if exploit_symmetries.horizontal = 1 then
            sliceAll (sliceRev (sliceAll (sliceAll observation_batch)))
          else [])
      ++ (if exploit_symmetries.vertical = 1 then
            sliceRev (sliceAll (sliceAll (sliceAll observation_batch)))
          else [])
      ++ (if exploit_symmetries.diagonal = 1 then
            sliceRev (sliceRev (sliceAll (sliceAll observation_batch)))
          else [])
    let ext_action_batch := action_batch ++ (List.replicate s action_batch).flatten
    let ext_value_batch := value_batch ++ (List.replicate s value_batch).flatten
    let ext_reward_batch := reward_batch ++ (List.replicate s reward_batch).flatten
    let ext_policy_batch := policy_batch ++ (List.replicate s policy_batch).flatten
    Except.ok (ext_observation_batch, ext_action_batch, ext_value_batch,
      ext_reward_batch, ext_policy_batch)

/-- The pure value one `make_target` iteration computes: the bootstrap term
as initial accumulator, then the fold of lines 124-132 with every list
access replaced by `getD` (legitimate once all accesses are known to be in
bounds). -/
def stepValue (g : GameHistory) (td_steps : Nat) (discount : ℚ)
    (current_index : Nat) : ℚ :=
  ((pySlice g.reward_history current_index (current_index + td_steps)).enum).foldl
    (fun acc ir =>
      acc + (if g.to_play_history.getD current_index 0
               = g.to_play_history.getD (current_index + ir.1) 0
             then ir.2 else -ir.2) * discount ^ ir.1)
    (if current_index + td_steps < g.root_values.length
     then g.root_values.getD (current_index + td_steps) 0 * discount ^ td_steps
     else 0)

/-- The absorbing-state policy: `len(child_visits[0])` copies of
`1 / len(child_visits[0])`. -/
def uniformPolicy (g : GameHistory) : List ℚ :=
  List.replicate (g.child_visits.getD 0 []).length
    (1 / (((g.child_visits.getD 0 []).length : ℚ)))

/-- The pure quadruple one `make_target` iteration appends. -/
def stepSpec (g : GameHistory) (td_steps : Nat) (discount : ℚ)
    (current_index : Nat) : ℚ × ℚ × List ℚ × Nat :=
  if current_index < g.root_values.length then
    (stepValue g td_steps discount current_index,
     g.reward_history.getD current_index 0,
     g.child_visits.getD current_index [],
     g.action_history.getD current_index 0)
  else
    (0, 0, uniformPolicy g, 0)

/-- The data-model invariant of a trajectory: the action, reward, root-value,
child-visit and to-play sequences all have the recorded length. -/
def WellFormed (g : GameHistory) : Prop :=
  g.action_history.length = g.reward_history.length ∧
  g.root_values.length = g.reward_history.length ∧
  g.child_visits.length = g.reward_history.length ∧
  g.to_play_history.length = g.reward_history.length

instance (g : GameHistory) : Decidable (WellFormed g) := by
  unfold WellFormed; infer_instance

/-- The spec's zero-sum-flip trajectory: `rewards=[1,1,1]`,
`root_values=[0,0,0,5]`, `to_play=[A,B,A,A]` (players as `0` and `1`). -/
def exampleG : GameHistory :=
  ⟨[], [0, 0, 0], [1, 1, 1], [0, 0, 0, 5], [[1], [1], [1]], [0, 1, 0, 0]⟩

/-- A well-formed variant of the spec's bootstrap trajectory, used to
instantiate hypotheses at a concrete input. -/
def gW : GameHistory :=
  ⟨[], [0, 0, 0], [1, 1, 1], [0, 0, 5], [[1], [1], [1]], [0, 1, 0]⟩

/-- A length-one trajectory whose unrolls reach the absorbing branch. -/
def gAbs : GameHistory := ⟨[[[2]]], [0], [0], [0], [[1]], [0]⟩

/-- A trivial trajectory used when only buffer book-keeping matters. -/
def gT : GameHistory := ⟨[], [], [], [], [], []⟩

/-- A window-one configuration. -/
def cfgW1 : MuZeroConfig := ⟨1, 4, 0, 0, 1⟩

/-- A 2x2 observation. -/
def obsA : Obs := [[1, 2], [3, 4]]

/-- A second, different 2x2 observation. -/
def obsB : Obs := [[5, 6], [7, 8]]

/-- A one-step trajectory carrying `obsA` and action `7`. -/
def gObsA : GameHistory := ⟨[obsA], [7], [0], [0], [[1]], [0]⟩

/-- A one-step trajectory carrying `obsB` and action `9`. -/
def gObsB : GameHistory := ⟨[obsB], [9], [0], [0], [[1]], [0]⟩

/-- Batch size 4, no unrolling: two raw samples per orientation when one
symmetry flag is set. -/
def cfgBatch4 : MuZeroConfig := ⟨10, 4, 0, 0, 1⟩

/-- Batch size 2, no unrolling. -/
def cfgBatch2 : MuZeroConfig := ⟨10, 2, 0, 0, 1⟩

/-- Batch size 5: not divisible by 2, so one enabled symmetry flag must make
`get_batch` raise. -/
def cfgBatch5 : MuZeroConfig := ⟨10, 5, 0, 0, 1⟩

/-- Modelled from the spec: the horizontal flip of an observation tensor's
spatial axes (each row reversed).  The source never implements any spatial
flip — this definition only states what the spec asks for, so that the
behavior of `get_batch` can be compared against it. -/
def hflipObs (o : Obs) : Obs := o.map List.reverse




theorem pyIdx_eq_some_getD (l : List α) (i : Nat) (d : α) (h : i < l.length) :
    pyIdx l i = some (l.getD i d) := by
  induction l generalizing i with
  | nil => simp at h
  | cons a t ih =>
    cases i with
    | zero => rfl
    | succ n => exact ih n (by simpa using Nat.lt_of_succ_lt_succ (by simpa using h))

theorem getD_drop_eq (l : List α) :
    ∀ (n i : Nat) (d : α), (l.drop n).getD i d = l.getD (n + i) d := by
  induction l with
  | nil => intro n i d; simp
  | cons a t ih =>
    intro n i d
    cases n with
    | zero => simp
    | succ m =>
      have h1 : m + 1 + i = m + i + 1 := by omega
      rw [List.drop_succ_cons, ih m i d, h1]
      rfl

theorem getD_take_eq (l : List α) :
    ∀ (n i : Nat) (d : α), i < n → (l.take n).getD i d = l.getD i d := by
  induction l with
  | nil => intro n i d _; simp
  | cons a t ih =>
    intro n i d h
    cases n with
    | zero => omega
    | succ m =>
      cases i with
      | zero => rfl
      | succ k => exact ih m k d (by omega)

theorem getD_map_range' (f : Nat → α) (d : α) :
    ∀ (n s j : Nat), j < n → ((List.range' s n).map f).getD j d = f (s + j) := by
  intro n
  induction n with
  | zero => intro s j h; omega
  | succ m ih =>
    intro s j h
    cases j with
    | zero => rfl
    | succ k =>
      have h2 := ih (s + 1) k (by omega)
      rw [show s + (k + 1) = s + 1 + k by omega]
      exact h2

theorem mem_enumFrom_bound (l : List α) :
    ∀ (n : Nat) (p : Nat × α), p ∈ l.enumFrom n → n ≤ p.1 ∧ p.1 < n + l.length := by
  induction l with
  | nil => intro n p h; simp [List.enumFrom] at h
  | cons a t ih =>
    intro n p h
    rw [List.enumFrom_cons, List.mem_cons] at h
    rcases h with h | h
    · subst h; simp
    · have := ih (n + 1) p h
      constructor <;> [omega; (simp only [List.length_cons]; omega)]

theorem foldlM_eq_foldl_of_some (f : β → α → Option β) (fp : β → α → β)
    (l : List α) (h : ∀ a ∈ l, ∀ b, f b a = some (fp b a)) :
    ∀ init : β, l.foldlM f init = some (l.foldl fp init) := by
  induction l with
  | nil => intro init; rfl
  | cons a t ih =>
    intro init
    rw [List.foldlM_cons, h a (List.mem_cons_self a t) init]
    exact ih (fun x hx b => h x (List.mem_cons_of_mem a hx) b) (fp init a)

theorem mapM_eq_some_map (f : α → Option β) (fp : α → β) (l : List α)
    (h : ∀ a ∈ l, f a = some (fp a)) : l.mapM f = some (l.map fp) := by
  induction l with
  | nil => rfl
  | cons a t ih =>
    rw [List.mapM_cons, h a (List.mem_cons_self a t),
      ih (fun x hx => h x (List.mem_cons_of_mem a hx))]
    rfl

theorem foldl_enumFrom_eq_sum (f : Nat → ℚ → ℚ) :
    ∀ (l : List ℚ) (n : Nat) (v : ℚ),
      (l.enumFrom n).foldl (fun acc p => acc + f p.1 p.2) v
        = v + ∑ i in Finset.range l.length, f (n + i) (l.getD i 0) := by
  intro l
  induction l with
  | nil => intro n v; simp
  | cons a t ih =>
    intro n v
    rw [List.enumFrom_cons, List.foldl_cons, ih (n + 1) (v + f n a),
      List.length_cons, Finset.sum_range_succ']
    simp only [List.getD_cons_succ, List.getD_cons_zero, Nat.add_zero]
    have hsum : ∑ i in Finset.range t.length, f (n + 1 + i) (t.getD i 0)
        = ∑ i in Finset.range t.length, f (n + (i + 1)) (t.getD i 0) :=
      Finset.sum_congr rfl (fun i _ => by
        rw [show n + 1 + i = n + (i + 1) from by omega])
    rw [hsum]
    ring

theorem map_range_const (n : Nat) (c : α) :
    (List.range n).map (fun _ => c) = List.replicate n c := by
  induction n with
  | zero => rfl
  | succ m ih =>
    rw [List.range_succ, List.map_append, ih, List.replicate_succ']
    rfl



theorem bind_some_eq (x : α) (f : α → Option β) : (some x >>= f) = f x := rfl

theorem bootstrapValue_eq (g : GameHistory) (td_steps : Nat) (discount : ℚ)
    (current_index : Nat) :
    bootstrapValue g td_steps discount current_index
      = some (if current_index + td_steps < g.root_values.length
              then g.root_values.getD (current_index + td_steps) 0 * discount ^ td_steps
              else 0) := by
  unfold bootstrapValue
  by_cases hb : current_index + td_steps < g.root_values.length
  · rw [if_pos hb, if_pos hb, pyIdx_eq_some_getD _ _ 0 hb]
    rfl
  · rw [if_neg hb, if_neg hb]
    rfl

theorem accumulateRewards_eq (g : GameHistory) (td_steps : Nat) (discount : ℚ)
    (current_index : Nat)
    (ht : g.to_play_history.length = g.reward_history.length) (v : ℚ) :
    accumulateRewards g td_steps discount current_index v
      = some (((pySlice g.reward_history current_index
            (current_index + td_steps)).enum).foldl
          (fun acc ir =>
            acc + (if g.to_play_history.getD current_index 0
                     = g.to_play_history.getD (current_index + ir.1) 0
                   then ir.2 else -ir.2) * discount ^ ir.1) v) := by
  unfold accumulateRewards
  apply foldlM_eq_foldl_of_some
  intro p hp b
  have hlen : (pySlice g.reward_history current_index
      (current_index + td_steps)).length
      ≤ g.reward_history.length - current_index := by
    simp only [pySlice, List.length_take, List.length_drop]
    omega
  have hb := mem_enumFrom_bound _ 0 p hp
  have h1 : current_index < g.to_play_history.length := by omega
  have h2 : current_index + p.1 < g.to_play_history.length := by omega
  rw [pyIdx_eq_some_getD _ _ 0 h1, pyIdx_eq_some_getD _ _ 0 h2]
  rfl

theorem assembleStep_eq (g : GameHistory) (current_index : Nat) (v : ℚ)
    (hwf : WellFormed g) (hL : 0 < g.reward_history.length) :
    assembleStep g current_index v
      = some (if current_index < g.root_values.length then
                (v, g.reward_history.getD current_index 0,
                 g.child_visits.getD current_index [],
                 g.action_history.getD current_index 0)
              else ((0 : ℚ), (0 : ℚ), uniformPolicy g, (0 : Nat))) := by
  obtain ⟨ha, hr, hc, ht⟩ := hwf
  unfold assembleStep
  by_cases h : current_index < g.root_values.length
  · rw [if_pos h, if_pos h, pyIdx_eq_some_getD _ _ 0 (by omega),
      pyIdx_eq_some_getD _ _ ([] : List ℚ) (by omega),
      pyIdx_eq_some_getD _ _ 0 (by omega)]
    rfl
  · rw [if_neg h, if_neg h, pyIdx_eq_some_getD _ _ ([] : List ℚ) (by omega),
      bind_some_eq]
    show some (_, _, _, _) = _
    rw [map_range_const]
    rfl

theorem makeTargetStep_eq (g : GameHistory) (td_steps : Nat) (discount : ℚ)
    (current_index : Nat) (hwf : WellFormed g)
    (hL : 0 < g.reward_history.length) :
    makeTargetStep g td_steps discount current_index
      = some (stepSpec g td_steps discount current_index) := by
  unfold makeTargetStep
  rw [bootstrapValue_eq, bind_some_eq,
    accumulateRewards_eq g td_steps discount current_index hwf.2.2.2, bind_some_eq]
  exact assembleStep_eq g current_index _ hwf hL

theorem make_target_eq (g : GameHistory) (s u td : Nat) (d : ℚ)
    (hwf : WellFormed g) (hL : 0 < g.reward_history.length) :
    make_target g s u td d = some
      ((List.range' s (u + 1)).map (fun ci => (stepSpec g td d ci).1),
       (List.range' s (u + 1)).map (fun ci => (stepSpec g td d ci).2.1),
       (List.range' s (u + 1)).map (fun ci => (stepSpec g td d ci).2.2.1),
       (List.range' s (u + 1)).map (fun ci => (stepSpec g td d ci).2.2.2)) := by
  unfold make_target
  rw [mapM_eq_some_map _ (stepSpec g td d) _
    (fun ci _ => makeTargetStep_eq g td d ci hwf hL), bind_some_eq]
  simp only [List.map_map]
  rfl

theorem stepValue_eq_sum (g : GameHistory) (td_steps : Nat) (discount : ℚ)
    (current_index : Nat) :
    stepValue g td_steps discount current_index
      = (if current_index + td_steps < g.root_values.length
         then g.root_values.getD (current_index + td_steps) 0 * discount ^ td_steps
         else 0)
        + ∑ i in Finset.range
            (min td_steps (g.reward_history.length - current_index)),
            (if g.to_play_history.getD current_index 0
               = g.to_play_history.getD (current_index + i) 0
             then g.reward_history.getD (current_index + i) 0
             else -(g.reward_history.getD (current_index + i) 0)) * discount ^ i := by
  unfold stepValue
  have h := foldl_enumFrom_eq_sum
    (fun i r => (if g.to_play_history.getD current_index 0
        = g.to_play_history.getD (current_index + i) 0 then r else -r) * discount ^ i)
    (pySlice g.reward_history current_index (current_index + td_steps)) 0
    (if current_index + td_steps < g.root_values.length
     then g.root_values.getD (current_index + td_steps) 0 * discount ^ td_steps else 0)
  refine Eq.trans h ?_
  have hlen : (pySlice g.reward_history current_index
      (current_index + td_steps)).length
      = min td_steps (g.reward_history.length - current_index) := by
    simp only [pySlice, List.length_take, List.length_drop]
    omega
  rw [hlen]
  congr 1
  refine Finset.sum_congr rfl (fun i hi => ?_)
  have hi2 : i < min td_steps (g.reward_history.length - current_index) :=
    Finset.mem_range.mp hi
  have hsl : (pySlice g.reward_history current_index
      (current_index + td_steps)).getD i 0
      = g.reward_history.getD (current_index + i) 0 := by
    unfold pySlice
    rw [getD_take_eq _ _ _ _ (by omega), getD_drop_eq]
  rw [Nat.zero_add, hsl]



theorem head?_drop_eq (l : List α) : ∀ n : Nat, (l.drop n).head? = l.get? n := by
  induction l with
  | nil => intro n; cases n <;> rfl
  | cons a t ih =>
    intro n
    cases n with
    | zero => rfl
    | succ m => exact ih m

theorem save_games_buffer_eq (config : MuZeroConfig) (gs : List GameHistory) :
    (save_games config gs).buffer
      = gs.drop (gs.length - (config.window_size + 1)) := by
  induction gs using List.reverseRecOn with
  | nil => simp [save_games, initialState]
  | append_singleton gs g ih =>
    have hstep : save_games config (gs ++ [g])
        = save_game config (save_games config gs) g := by
      simp [save_games, List.foldl_append]
    rw [hstep]
    simp only [save_game]
    rw [ih]
    simp only [List.length_append, List.length_singleton]
    by_cases hN : config.window_size < gs.length
    · rw [if_pos (by simp only [List.length_drop]; omega)]
      rw [List.tail_drop, List.drop_append_of_le_length (by omega),
        show gs.length - (config.window_size + 1) + 1
          = gs.length + 1 - (config.window_size + 1) from by omega]
    · rw [if_neg (by simp only [List.length_drop]; omega)]
      rw [show gs.length - (config.window_size + 1) = 0 from by omega,
        show gs.length + 1 - (config.window_size + 1) = 0 from by omega,
        List.drop_zero, List.drop_zero]

theorem foldl_save_game_count (config : MuZeroConfig) :
    ∀ (gs : List GameHistory) (s : BufferState),
      (gs.foldl (save_game config) s).self_play_count
        = s.self_play_count + gs.length := by
  intro gs
  induction gs with
  | nil => intro s; simp
  | cons a t ih =>
    intro s
    rw [List.foldl_cons, ih]
    simp only [save_game, List.length_cons]
    omega

/-- C4 counterexample: with `window_size = 1`, two `save_game` calls leave
two stored games, so the stored count does exceed `window_size`. -/
theorem C4_window_bound_counterexample :
    ¬ ((save_games cfgW1 [gT, gT]).buffer.length ≤ cfgW1.window_size) := by
  decide

/-- C4 (amended): for every sequence of `save_game` calls starting from the
empty store, the number of stored trajectories never exceeds
`window_size + 1` (the source evicts only when the length already exceeds
`window_size`, so the count reaches, and stays at, `window_size + 1`). -/
theorem C4_window_bound (config : MuZeroConfig) (gs : List GameHistory) :
    (save_games config gs).buffer.length ≤ config.window_size + 1 := by
  rw [save_games_buffer_eq, List.length_drop]
  omega

/-- C5: after any sequence of `save_game` calls from the empty store the
stored count never exceeds `window_size + 1`; the buffer is always the
suffix of the appended sequence keeping at most the `window_size + 1` most
recent games (eviction is strictly FIFO); and after more than `window_size`
appends the oldest surviving trajectory is the one inserted `window_size`
appends before the most recent one. -/
theorem C5_fifo_window (config : MuZeroConfig) (gs : List GameHistory) :
    (save_games config gs).buffer.length ≤ config.window_size + 1 ∧
    (save_games config gs).buffer
      = gs.drop (gs.length - (config.window_size + 1)) ∧
    (config.window_size < gs.length →
      (save_games config gs).buffer.head?
        = gs.get? (gs.length - 1 - config.window_size)) := by
  refine ⟨?_, save_games_buffer_eq config gs, ?_⟩
  · rw [save_games_buffer_eq, List.length_drop]
    omega
  · intro h
    rw [save_games_buffer_eq, head?_drop_eq,
      show gs.length - (config.window_size + 1)
        = gs.length - 1 - config.window_size from by omega]

/-- C5 witness: with `window_size = 1` and three appended games, the oldest
surviving game is the second one appended. -/
theorem C5_fifo_window_witness :
    (save_games cfgW1 [gT, gT, gT]).buffer.head? = some gT :=
  ((C5_fifo_window cfgW1 [gT, gT, gT]).2.2 (by decide)).trans rfl

/-- C9: after exactly N `save_game` calls the self-play counter reads N
regardless of evictions; a save never decreases it; and reading it is a pure
projection of the state (no state change). -/
theorem C9_self_play_counter (config : MuZeroConfig) :
    (∀ gs : List GameHistory,
      get_self_play_count (save_games config gs) = gs.length) ∧
    (∀ (s : BufferState) (g : GameHistory),
      get_self_play_count s ≤ get_self_play_count (save_game config s g)) ∧
    (∀ s : BufferState, get_self_play_count s = s.self_play_count) := by
  refine ⟨?_, ?_, fun s => rfl⟩
  · intro gs
    have h := foldl_save_game_count config gs initialState
    simpa [save_games, get_self_play_count, initialState] using h
  · intro s g
    simp only [get_self_play_count, save_game]
    omega



theorem uniformPolicy_sum (g : GameHistory)
    (hA : 0 < (g.child_visits.getD 0 []).length) :
    (uniformPolicy g).sum = 1 := by
  rw [uniformPolicy, List.sum_replicate, nsmul_eq_mul]
  exact mul_one_div_cancel (Nat.cast_ne_zero.mpr (by omega))

/-- C1: for a trajectory satisfying the data-model invariants, every value
target produced by `make_target` at a step `current_index = s + j` inside
the recorded trajectory equals the bootstrap term
`root_values[current_index + td] * d^td` (or `0` when that index is out of
bounds) plus the signed discounted sum of the rewards at offsets `0 ≤ i <
min td (L - current_index)`, each negated exactly when the acting player at
`current_index + i` differs from the acting player at `current_index`; and
in particular on the spec's zero-sum-flip example the first value target
is `0.5`. -/
theorem C1_value_targets (g : GameHistory) (s u td : Nat) (d : ℚ)
    (hwf : WellFormed g) (hL : 0 < g.reward_history.length)
    (hs : s < g.reward_history.length) (hd0 : 0 < d) (hd1 : d ≤ 1)
    (j : Nat) (hj : j < u + 1) (hci : s + j < g.root_values.length) :
    (∃ v r p a, make_target g s u td d = some (v, r, p, a) ∧
        v.getD j 0 =
          (if s + j + td < g.root_values.length
           then g.root_values.getD (s + j + td) 0 * d ^ td else 0)
          + ∑ i in Finset.range
              (min td (g.reward_history.length - (s + j))),
              (if g.to_play_history.getD (s + j) 0
                 = g.to_play_history.getD (s + j + i) 0
               then g.reward_history.getD (s + j + i) 0
               else -(g.reward_history.getD (s + j + i) 0)) * d ^ i)
    ∧ (∃ v r p a, make_target exampleG 0 0 2 (1/2 : ℚ) = some (v, r, p, a)
        ∧ v.getD 0 0 = (1/2 : ℚ)) := by
  constructor
  · refine ⟨_, _, _, _, make_target_eq g s u td d hwf hL, ?_⟩
    have h1 := getD_map_range' (fun ci => (stepSpec g td d ci).1) 0 (u + 1) s j hj
    rw [h1]
    simp only [stepSpec, if_pos hci]
    exact stepValue_eq_sum g td d (s + j)
  · refine ⟨[1/2], [1], [[1]], [0], ?_, by rfl⟩
    simp [make_target, makeTargetStep, bootstrapValue, accumulateRewards,
      assembleStep, pyIdx, pySlice, exampleG, List.enum, List.enumFrom,
      List.foldlM, List.mapM, List.mapM.loop]
    norm_num

/-- C1 witness: on a well-formed trajectory with `rewards=[1,1,1]`,
`root_values=[0,0,5]`, `to_play=[A,B,A]`, `discount=1/2`, `td_steps=2`, the
first value target is `5/4 + 1 - 1/2 = 7/4`. -/
theorem C1_value_targets_witness :
    ∃ v r p a, make_target gW 0 0 2 (1/2 : ℚ) = some (v, r, p, a)
      ∧ v.getD 0 0 = (7/4 : ℚ) := by
  obtain ⟨⟨v, r, p, a, h1, h2⟩, -⟩ :=
    C1_value_targets gW 0 0 2 (1/2) (by decide) (by decide) (by decide)
      (by norm_num) (by norm_num) 0 (by decide) (by decide)
  refine ⟨v, r, p, a, h1, ?_⟩
  rw [h2]
  simp [gW, Finset.sum_range_succ]
  norm_num

/-- C6: on a well-formed trajectory of recorded length L with a nonempty
action space, every `make_target` entry at a step `s + j ≥ L` is the
absorbing-state padding: value 0, reward 0, the uniform policy of length
`len(child_visits[0])` summing to 1, and the sentinel action 0. -/
theorem C6_absorbing_states (g : GameHistory) (s u td : Nat) (d : ℚ)
    (hwf : WellFormed g) (hL : 0 < g.reward_history.length)
    (hA : 0 < (g.child_visits.getD 0 []).length)
    (hs : s < g.reward_history.length)
    (hend : g.reward_history.length ≤ s + u)
    (j : Nat) (hj : j < u + 1) (habs : g.reward_history.length ≤ s + j) :
    ∃ v r p a, make_target g s u td d = some (v, r, p, a) ∧
      v.getD j 0 = 0 ∧ r.getD j 0 = 0 ∧
      p.getD j [] = List.replicate (g.child_visits.getD 0 []).length
        (1 / (((g.child_visits.getD 0 []).length : ℚ))) ∧
      (p.getD j []).sum = 1 ∧
      a.getD j 0 = 0 := by
  have hrv : ¬ (s + j < g.root_values.length) := by
    have h2 := hwf.2.1
    omega
  refine ⟨_, _, _, _, make_target_eq g s u td d hwf hL, ?_, ?_, ?_, ?_, ?_⟩
  · rw [getD_map_range' (fun ci => (stepSpec g td d ci).1) 0 (u + 1) s j hj]
    simp only [stepSpec, if_neg hrv]
  · rw [getD_map_range' (fun ci => (stepSpec g td d ci).2.1) 0 (u + 1) s j hj]
    simp only [stepSpec, if_neg hrv]
  · rw [getD_map_range' (fun ci => (stepSpec g td d ci).2.2.1) [] (u + 1) s j hj]
    simp only [stepSpec, if_neg hrv]
    rfl
  · rw [getD_map_range' (fun ci => (stepSpec g td d ci).2.2.1) [] (u + 1) s j hj]
    simp only [stepSpec, if_neg hrv]
    exact uniformPolicy_sum g hA
  · rw [getD_map_range' (fun ci => (stepSpec g td d ci).2.2.2) 0 (u + 1) s j hj]
    simp only [stepSpec, if_neg hrv]

/-- C6 witness: a length-one trajectory unrolled one step past its end
yields the absorbing-state entry at position 1. -/
theorem C6_absorbing_states_witness :
    ∃ v r p a, make_target gAbs 0 1 0 1 = some (v, r, p, a) ∧
      v.getD 1 0 = 0 ∧ r.getD 1 0 = 0 ∧
      p.getD 1 [] = List.replicate (gAbs.child_visits.getD 0 []).length
        (1 / (((gAbs.child_visits.getD 0 []).length : ℚ))) ∧
      (p.getD 1 []).sum = 1 ∧
      a.getD 1 0 = 0 :=
  C6_absorbing_states gAbs 0 1 0 1 (by decide) (by decide) (by decide)
    (by decide) (by decide) 1 (by decide) (by decide)

/-- C7: on a well-formed trajectory (all five sequences of the same positive
length) and a start index inside the trajectory, `make_target` performs no
out-of-bounds list access for any unroll and td-step counts: the embedding,
in which every out-of-bounds read aborts with `none`, always succeeds. -/
theorem C7_no_out_of_bounds (g : GameHistory) (s u td : Nat) (d : ℚ)
    (hwf : WellFormed g) (hL : 0 < g.reward_history.length)
    (hs : s < g.reward_history.length) :
    (make_target g s u td d).isSome := by
  rw [make_target_eq g s u td d hwf hL]
  rfl

/-- C7 witness: the one-step trajectory at start index 0. -/
theorem C7_no_out_of_bounds_witness : (make_target gAbs 0 0 0 1).isSome :=
  C7_no_out_of_bounds gAbs 0 0 0 1 (by decide) (by decide) (by decide)



theorem except_bind_error (e : ε) (f : α → Except ε β) :
    (Except.error e >>= f) = Except.error e := rfl

theorem except_bind_ok (x : α) (f : α → Except ε β) :
    (Except.ok x >>= f) = f x := rfl

theorem collectSamples_ne_invalid (config : MuZeroConfig) :
    ∀ draws : List (GameHistory × Nat),
      collectSamples config draws ≠ Except.error BufferError.invalidConfiguration := by
  intro draws
  induction draws with
  | nil => simp [collectSamples]
  | cons gp rest ih =>
    unfold collectSamples
    cases make_target gp.1 gp.2 config.num_unroll_steps config.td_steps
        config.discount with
    | none => simp
    | some t =>
      cases pyIdx gp.1.observation_history gp.2 with
      | none => simp
      | some o =>
        cases h : collectSamples config rest with
        | error e =>
          rw [h] at ih
          simp only [ne_eq, Except.error.injEq]
          intro hc
          exact ih (by rw [hc])
        | ok others => simp

/-- C8: `get_batch` raises the invalid-configuration `ValueError` exactly
when the configured batch size is not evenly divisible by `k + 1`, where
`k` is the number of enabled symmetry flags; and when it raises, it does so
before any trajectory is sampled: the result does not depend on the drawn
samples at all. -/
theorem C8_invalid_configuration (config : MuZeroConfig) (e : Symmetries)
    (draws : List (GameHistory × Nat)) :
    ((get_batch config e draws = Except.error BufferError.invalidConfiguration)
      ↔ ¬ (e.symTotal + 1) ∣ config.batch_size)
    ∧ (¬ (e.symTotal + 1) ∣ config.batch_size →
        ∀ draws2 : List (GameHistory × Nat),
          get_batch config e draws = get_batch config e draws2) := by
  have hguard : ((e.symTotal + 1) *
      (if e.symTotal = 0 then config.batch_size
       else config.batch_size / (e.symTotal + 1)) ≠ config.batch_size)
      ↔ ¬ (e.symTotal + 1) ∣ config.batch_size := by
    by_cases hk : e.symTotal = 0
    · rw [if_pos hk, hk]
      simp
    · rw [if_neg hk]
      constructor
      · intro hne hdvd
        exact hne (Nat.mul_div_cancel' hdvd)
      · intro hnd heq
        exact hnd ⟨config.batch_size / (e.symTotal + 1), heq.symm⟩
  constructor
  · constructor
    · intro herr
      rw [← hguard]
      by_contra hno
      simp only [get_batch] at herr
      rw [if_neg (not_not.mpr hno)] at herr
      cases h : collectSamples config
          (draws.take (if e.symTotal = 0 then config.batch_size
            else config.batch_size / (e.symTotal + 1))) with
      | error e2 =>
        rw [h, except_bind_error] at herr
        injection herr with he2
        rw [he2] at h
        exact collectSamples_ne_invalid config _ h
      | ok samples =>
        rw [h, except_bind_ok] at herr
        simp at herr
    · intro hnd
      simp only [get_batch]
      rw [if_pos (hguard.mpr hnd)]
  · intro hnd draws2
    simp only [get_batch]
    rw [if_pos (hguard.mpr hnd), if_pos (hguard.mpr hnd)]

/-- C8 witness: batch size 5 with one enabled flag raises the
invalid-configuration error, and the result is the same for different
drawn samples. -/
theorem C8_invalid_configuration_witness :
    get_batch cfgBatch5 ⟨1, 0, 0⟩ []
        = Except.error BufferError.invalidConfiguration
    ∧ get_batch cfgBatch5 ⟨1, 0, 0⟩ []
        = get_batch cfgBatch5 ⟨1, 0, 0⟩ [(gObsA, 0)] := by
  have h := C8_invalid_configuration cfgBatch5 ⟨1, 0, 0⟩ []
  exact ⟨h.1.mpr (by decide), h.2 (by decide) [(gObsA, 0)]⟩



/-- C10: with only the diagonal flag enabled, `get_batch` returns the raw
drawn batch concatenated with an exact, untransformed duplicate of itself
in all five sequences: `observation_batch[:][:][::-1][::-1]` is two list
reversals (the identity on the batch list) and the labels are verbatim
copies. -/
theorem C10_diagonal_duplicates (config : MuZeroConfig)
    (draws : List (GameHistory × Nat))
    (samples : List (Obs × (List ℚ × List ℚ × List (List ℚ) × List Nat)))
    (hdvd : 2 ∣ config.batch_size)
    (hs : collectSamples config (draws.take (config.batch_size / 2))
        = Except.ok samples) :
    get_batch config ⟨0, 0, 1⟩ draws = Except.ok
      (samples.map (fun x => x.1) ++ samples.map (fun x => x.1),
       samples.map (fun x => x.2.2.2.2) ++ samples.map (fun x => x.2.2.2.2),
       samples.map (fun x => x.2.1) ++ samples.map (fun x => x.2.1),
       samples.map (fun x => x.2.2.1) ++ samples.map (fun x => x.2.2.1),
       samples.map (fun x => x.2.2.2.1) ++ samples.map (fun x => x.2.2.2.1)) := by
  simp only [get_batch, Symmetries.symTotal]
  rw [if_neg (by simp [Nat.mul_div_cancel' hdvd])]
  rw [show (if (0 : Nat) + 0 + 1 = 0 then config.batch_size
      else config.batch_size / (0 + 0 + 1 + 1)) = config.batch_size / 2 from by norm_num]
  rw [hs, except_bind_ok]
  simp [sliceAll, sliceRev]



/-- C10 witness: one drawn sample with the diagonal flag produces that
sample duplicated in all five sequences. -/
theorem C10_diagonal_duplicates_witness :
    get_batch cfgBatch2 ⟨0, 0, 1⟩ [(gObsA, 0)] = Except.ok
      ([obsA, obsA], [[7], [7]], [[0], [0]], [[0], [0]], [[[1]], [[1]]]) :=
  C10_diagonal_duplicates cfgBatch2 [(gObsA, 0)] [(obsA, ([0], [0], [[1]], [7]))]
    (by decide)
    (by simp [collectSamples, make_target, makeTargetStep, bootstrapValue,
      accumulateRewards, assembleStep, pyIdx, pySlice, cfgBatch2, gObsA,
      List.enum, List.enumFrom, List.foldlM, List.mapM, List.mapM.loop])

theorem get_batch_horizontal_eq (config : MuZeroConfig)
    (draws : List (GameHistory × Nat))
    (samples : List (Obs × (List ℚ × List ℚ × List (List ℚ) × List Nat)))
    (hdvd : 2 ∣ config.batch_size)
    (hs : collectSamples config (draws.take (config.batch_size / 2))
        = Except.ok samples) :
    get_batch config ⟨1, 0, 0⟩ draws = Except.ok
      (samples.map (fun x => x.1) ++ (samples.map (fun x => x.1)).reverse,
       samples.map (fun x => x.2.2.2.2) ++ samples.map (fun x => x.2.2.2.2),
       samples.map (fun x => x.2.1) ++ samples.map (fun x => x.2.1),
       samples.map (fun x => x.2.2.1) ++ samples.map (fun x => x.2.2.1),
       samples.map (fun x => x.2.2.2.1) ++ samples.map (fun x => x.2.2.2.1)) := by
  simp only [get_batch, Symmetries.symTotal]
  rw [if_neg (by simp [Nat.mul_div_cancel' hdvd])]
  rw [show (if (1 : Nat) + 0 + 0 = 0 then config.batch_size
      else config.batch_size / (1 + 0 + 0 + 1)) = config.batch_size / 2 from by
    norm_num]
  rw [hs, except_bind_ok]
  simp [sliceAll, sliceRev]

theorem collectSamples_pairAB :
    collectSamples cfgBatch4
        ([(gObsA, 0), (gObsB, 0)].take (cfgBatch4.batch_size / 2))
      = Except.ok [(obsA, ([0], [0], [[1]], [7])),
          (obsB, ([0], [0], [[1]], [9]))] := by
  simp [collectSamples, make_target, makeTargetStep, bootstrapValue,
    accumulateRewards, assembleStep, pyIdx, pySlice, cfgBatch4, gObsA, gObsB,
    List.enum, List.enumFrom, List.foldlM, List.mapM, List.mapM.loop]

/-- C2: with the horizontal flag enabled, the observations `get_batch`
appends are not spatial flips of the collected observations: Python list
slicing `observation_batch[:][:][::-1][:]` reverses the order of the batch
list and leaves every observation tensor untouched.  At this input the
first appended observation is the untransformed second raw observation,
not the horizontal flip of the first, and likewise for the second. -/
theorem C2_no_spatial_flip :
    ∃ O A2 V R P, get_batch cfgBatch4 ⟨1, 0, 0⟩ [(gObsA, 0), (gObsB, 0)]
        = Except.ok (O, A2, V, R, P) ∧
      O = [obsA, obsB, obsB, obsA] ∧
      O.getD 2 [] ≠ hflipObs (O.getD 0 []) ∧
      O.getD 3 [] ≠ hflipObs (O.getD 1 []) ∧
      hflipObs obsA = [[2, 1], [4, 3]] := by
  have hb := get_batch_horizontal_eq cfgBatch4 [(gObsA, 0), (gObsB, 0)]
    [(obsA, ([0], [0], [[1]], [7])), (obsB, ([0], [0], [[1]], [9]))]
    (by decide) collectSamples_pairAB
  exact ⟨[obsA, obsB, obsB, obsA], [[7], [9], [7], [9]], [[0], [0], [0], [0]],
    [[0], [0], [0], [0]], [[[1]], [[1]], [[1]], [[1]]], hb, rfl,
    by decide, by decide, rfl⟩

/-- C3: the five sequences `get_batch` returns are not index-aligned once
the horizontal flag is enabled: the appended observation block is the raw
observation list in reversed order while the label blocks are verbatim
copies in the original order, so the third entry carries the observation of
the second raw sample together with the labels of the first, which differ
from the second sample's labels. -/
theorem C3_label_misalignment :
    ∃ O A2 V R P, get_batch cfgBatch4 ⟨1, 0, 0⟩ [(gObsA, 0), (gObsB, 0)]
        = Except.ok (O, A2, V, R, P) ∧
      O.getD 2 [] = O.getD 1 [] ∧
      A2.getD 2 [] = A2.getD 0 [] ∧
      A2.getD 0 [] ≠ A2.getD 1 [] := by
  have hb := get_batch_horizontal_eq cfgBatch4 [(gObsA, 0), (gObsB, 0)]
    [(obsA, ([0], [0], [[1]], [7])), (obsB, ([0], [0], [[1]], [9]))]
    (by decide) collectSamples_pairAB
  exact ⟨[obsA, obsB, obsB, obsA], [[7], [9], [7], [9]], [[0], [0], [0], [0]],
    [[0], [0], [0], [0]], [[[1]], [[1]], [[1]], [[1]]], hb, rfl, rfl,
    by decide⟩

end ReplayBuffer
